import Mathlib

/-!
Verification of the ingestion pipeline of the at-leveling-chatbot repository
(`src/ingestion/pipeline.py`, `src/core/config.py`, `src/core/rag.py`),
as a shallow embedding in Lean 4.

Python strings are embedded as `List Char`, Python lists as Lean lists,
exceptions as `Except`, and the observable side effects of the pipeline
(network calls, sleeps, page loads) as explicit event traces.
-/

namespace ATChatbot

/-! ### Python string helpers -/

/-- Python `s.lower()` on a character-list string. -/
def toLowerL (s : List Char) : List Char := s.map Char.toLower

/-- Python substring containment `needle in hay`. -/
def hasSub (needle : List Char) : List Char → Bool
  | [] => needle.isEmpty
  | c :: rest => needle.isPrefixOf (c :: rest) || hasSub needle rest

/-- Python `", ".join(xs)`. -/
def joinComma : List (List Char) → List Char
  | [] => []
  | [x] => x
  | x :: xs => x ++ ", ".toList ++ joinComma xs

/-! ### Data model -/

/-- A page- or chunk-level document: text content plus its origin page. -/
structure Document where
  content : List Char
  page : Nat
deriving Repr, DecidableEq

/-- Structured error kinds raised by the pipeline. -/
inductive PipeErr
  | fileNotFound (msg : List Char)
  | missingEnv (msg : List Char)
  | remote (msg : List Char)
  | divByZero
deriving Repr, DecidableEq

/-! ### Document loader (`load_pdf_pages` / `load_pdf`, pipeline.py lines 18-61) -/

/-- Python slice `l[s:e]` for non-negative bounds. -/
def pySlice (l : List α) (s e : Nat) : List α := (l.drop s).take (e - s)

/-- Embeds `load_pdf_pages`: load the whole PDF (given here as the page list
the file parses to) and slice `documents[start_page:end_page]`. -/
def load_pdf_pages (pages : List α) (startPage endPage : Nat) : List α :=
  pySlice pages startPage endPage

/-- Embeds the `page_ranges` list comprehension of `load_pdf`:
`(i*pp, (i+1)*pp)` for each worker `i`, the last range extended to the
total page count. -/
def pageRanges (totalPages maxProcesses : Nat) : List (Nat × Nat) :=
  (List.range maxProcesses).map fun i =>
    (i * (totalPages / maxProcesses),
     if i < maxProcesses - 1 then (i + 1) * (totalPages / maxProcesses) else totalPages)

/-- Observable load actions of `load_pdf`. -/
inductive LoadEv
  | fullLoad
  | rangeLoad
deriving Repr, DecidableEq

/-- Message of the `FileNotFoundError` raised by `load_pdf`. -/
def pdfNotFoundMsg (path : List Char) : List Char := "PDF not found: ".toList ++ path

/-- Embeds `load_pdf`: existence check first, then a full single-threaded load;
if the page count exceeds `max_processes`, the page range is partitioned and
each sub-range is re-loaded via `load_pdf_pages`, results concatenated in
range-index order (`pool.starmap` preserves argument order). The filesystem is
a map from paths to the page list the PDF parses to (`none` = no such file). -/
def load_pdf (fs : List Char → Option (List α)) (pdfPath : List Char)
    (maxProcesses : Nat) : List LoadEv × Except PipeErr (List α) :=
  match fs pdfPath with
  | none => ([], Except.error (PipeErr.fileNotFound (pdfNotFoundMsg pdfPath)))
  | some tempDocs =>
    if tempDocs.length ≤ maxProcesses then
      ([LoadEv.fullLoad], Except.ok tempDocs)
    else
      (LoadEv.fullLoad :: (pageRanges tempDocs.length maxProcesses).map (fun _ => LoadEv.rangeLoad),
       Except.ok ((pageRanges tempDocs.length maxProcesses).flatMap
         (fun r => load_pdf_pages tempDocs r.1 r.2)))

/-! ### Batch uploader (`upload_in_batches`, pipeline.py lines 74-107)

The `vectorstore.add_documents` network call is abstracted by an oracle
`Nat → Bool` giving the outcome of the t-th call made during the run
(`true` = the call returns, `false` = it raises). -/

/-- Running tallies of the upload loop. -/
structure UploadState where
  successful : Nat
  failed : Nat
deriving Repr, DecidableEq

/-- Batches as sliced by `for i in range(0, total_docs, batch_size):
batch = documents[i:i+batch_size]`; the fuel argument is an artifact making
the recursion structural and is irrelevant once it is at least the list
length (each step drops `batchSize ≥ 1` elements). -/
def batchesGo (batchSize : Nat) : Nat → List α → List (List α)
  | _, [] => []
  | 0, _ => []
  | fuel + 1, docs => docs.take batchSize :: batchesGo batchSize fuel (docs.drop batchSize)

/-- The contiguous batch partition of the document list. -/
def batches (batchSize : Nat) (docs : List α) : List (List α) :=
  batchesGo batchSize docs.length docs

/-- Embeds the body of the upload loop: first `add_documents` attempt; on
success `successful += len(batch)`; on exception `failed += len(batch)` and a
single retry, which on success does `successful += len(batch); failed -=
len(batch)` and on a second exception is swallowed (`except: pass`), so the
loop always continues with the next batch. -/
def uploadGo (oracle : Nat → Bool) : Nat → UploadState → List (List α) → UploadState
  | _, st, [] => st
  | t, st, b :: rest =>
    if oracle t then
      uploadGo oracle (t + 1) ⟨st.successful + b.length, st.failed⟩ rest
    else if oracle (t + 1) then
      uploadGo oracle (t + 2) ⟨st.successful + b.length, st.failed + b.length - b.length⟩ rest
    else
      uploadGo oracle (t + 2) ⟨st.successful, st.failed + b.length⟩ rest

/-- Embeds `upload_in_batches`: returns the final tallies and the boolean
result `failed == 0`. -/
def upload_in_batches (oracle : Nat → Bool) (docs : List α) (batchSize : Nat) :
    UploadState × Bool :=
  let st := uploadGo oracle 0 ⟨0, 0⟩ (batches batchSize docs)
  (st, st.failed == 0)

/-- The batches that still fail after their one retry, with the same oracle
call-numbering as `uploadGo` (one call on first-attempt success, two
otherwise). -/
def failedBatches (oracle : Nat → Bool) : Nat → List (List α) → List (List α)
  | _, [] => []
  | t, b :: rest =>
    if oracle t then failedBatches oracle (t + 1) rest
    else if oracle (t + 1) then failedBatches oracle (t + 2) rest
    else b :: failedBatches oracle (t + 2) rest

/-! ### Timing trace of the upload loop (C6)

The same loop, projected onto its observable actions: `add_documents` calls
and `time.sleep` pauses (durations in tenths of a second: `time.sleep(0.1)`
is `sleep 1`, `time.sleep(0.5)` is `sleep 5`). -/

/-- An observable action of `upload_in_batches`. -/
inductive UpEv
  | insert (batch : Nat) (retry : Bool)
  | gcCollect
  | sleep (deciseconds : Nat)
deriving Repr, DecidableEq

/-- The `time.sleep(0.1)` rate-limit pause of the success branch, in
deciseconds. -/
def interBatchPause : Nat := 1

/-- The `time.sleep(0.5)` backoff before the retry, in deciseconds. -/
def retryBackoff : Nat := 5

/-- The action trace of the upload loop: on a first-attempt success the batch
does `add_documents; gc.collect(); time.sleep(0.1)`; on a first-attempt
failure it does `add_documents` (raising), `time.sleep(0.5)`, then the retry
`add_documents`, and — whatever the retry outcome — proceeds directly to the
next batch with no further sleep. -/
def uploadEvents (oracle : Nat → Bool) : Nat → Nat → List (List α) → List UpEv
  | _, _, [] => []
  | t, k, _ :: rest =>
    if oracle t then
      UpEv.insert k false :: UpEv.gcCollect :: UpEv.sleep interBatchPause ::
        uploadEvents oracle (t + 1) (k + 1) rest
    else
      UpEv.insert k false :: UpEv.sleep retryBackoff :: UpEv.insert k true ::
        uploadEvents oracle (t + 2) (k + 1) rest

/-- Detects two adjacent `add_documents` calls belonging to different
batches, i.e. a batch boundary crossed with no pause in between. -/
def adjacentCrossBatchInserts : List UpEv → Bool
  | UpEv.insert k _ :: UpEv.insert k' r' :: rest =>
      decide (k ≠ k') || adjacentCrossBatchInserts (UpEv.insert k' r' :: rest)
  | _ :: rest => adjacentCrossBatchInserts rest
  | [] => false

/-- Oracle for the C6 counterexample: the very first `add_documents` call
raises, every later call (including the retry) returns. -/
def c6Oracle : Nat → Bool := fun t => t != 0

/-! ### Environment validation (`Config.validate_environment`, config.py lines 51-68) -/

/-- The ten required environment variables, in source order. -/
def requiredVars : List (List Char) :=
  ["AZURE_OPENAI_API_KEY".toList,
   "AZURE_OPENAI_ENDPOINT".toList,
   "AZURE_OPENAI_API_VERSION".toList,
   "AZURE_OPENAI_DEPLOYMENT_NAME".toList,
   "AZURE_OPENAI_EMBEDDINGS_API_KEY".toList,
   "AZURE_OPENAI_EMBEDDINGS_ENDPOINT".toList,
   "AZURE_OPENAI_EMBEDDINGS_API_VERSION".toList,
   "AZURE_OPENAI_EMBEDDINGS_DEPLOYMENT_NAME".toList,
   "QDRANT_URL".toList,
   "QDRANT_API_KEY".toList]

/-- Python truthiness of `os.getenv(var)`: unset (`None`) and the empty
string are both falsy. -/
def envMissing (env : List Char → Option (List Char)) (v : List Char) : Bool :=
  match env v with
  | none => true
  | some s => s.isEmpty

/-- Embeds `Config.validate_environment`: the sublist of required variables
that are unset or empty, in source order. -/
def validate_environment (env : List Char → Option (List Char)) : List (List Char) :=
  requiredVars.filter (envMissing env)

/-- The message of the `ValueError` raised by `ingest_documents`: the fixed
text `Missing environment variables: ` followed by the comma-joined names of
the missing variables. -/
def missingEnvMsg (missing : List (List Char)) : List Char :=
  "Missing environment variables: ".toList ++ joinComma missing

/-! ### Collection provisioning (`create_or_verify_collection`, rag.py lines 57-79) -/

/-- The remote vector-store collection registry: name and dimensionality of
each existing collection. -/
structure QdrantState where
  collections : List (List Char × Nat)
deriving Repr, DecidableEq

/-- The lowercase token `create_or_verify_collection` looks for in the
exception text. -/
def alreadyExistsText : List Char := "already exists".toList

/-- Modelled from the spec: the vector-store service is an external
collaborator (qdrant-client, absent from this repository); §6 gives
`create_collection(name, vector_size, ...) -> Ok | AlreadyExists | Error`,
the `AlreadyExists` outcome surfacing as an exception whose message names the
collection and says it already exists. -/
def create_collection (st : QdrantState) (name : List Char) (dim : Nat) :
    Except (List Char) QdrantState :=
  if (st.collections.map Prod.fst).contains name then
    Except.error ("Collection ".toList ++ name ++ " already exists!".toList)
  else
    Except.ok ⟨(name, dim) :: st.collections⟩

/-- The `try/except` of `create_or_verify_collection` applied to the outcome
of the client call: on success return `True` (with the updated remote
state); on an exception whose lowercased text contains `"already exists"`
swallow it and return `True`; re-raise anything else. -/
def handleCreateOutcome (st : QdrantState) :
    Except (List Char) QdrantState → Except (List Char) (Bool × QdrantState)
  | Except.ok st' => Except.ok (true, st')
  | Except.error e =>
      if hasSub alreadyExistsText (toLowerL e) then Except.ok (true, st)
      else Except.error e

/-- Embeds `create_or_verify_collection`: run the client's
`create_collection` call (abstracted as a function of the remote state) and
handle its outcome as the source's `try/except` does. -/
def create_or_verify_collection
    (create : QdrantState → Except (List Char) QdrantState) (st : QdrantState) :
    Except (List Char) (Bool × QdrantState) :=
  handleCreateOutcome st (create st)

/-! ### Chunk splitter (`split_documents`, pipeline.py lines 64-71) -/

/-- Modelled from the spec: the splitter implementation
(`RecursiveCharacterTextSplitter` from the langchain library) is external
code absent from this repository; §4.2 contracts it to produce, per source
document, an ordered sequence of chunks of length at most `chunk_size`,
adjacent chunks sharing `chunk_overlap` characters of trailing/leading
context, in within-document position order.  Modelled at character
granularity: a window of `chunkSize` characters advanced by `chunkSize -
chunkOverlap` positions, the final window taking whatever remains; an empty
text yields no chunks.  The fuel argument only makes the recursion
structural and is irrelevant once it is at least the text length. -/
def splitTextGo (chunkSize chunkOverlap : Nat) : Nat → List Char → List (List Char)
  | _, [] => []
  | 0, l => [l]
  | fuel + 1, l =>
    if l.length ≤ chunkSize then [l]
    else l.take chunkSize ::
      splitTextGo chunkSize chunkOverlap fuel (l.drop (chunkSize - chunkOverlap))

/-- Chunks of one text. -/
def splitText (chunkSize chunkOverlap : Nat) (l : List Char) : List (List Char) :=
  splitTextGo chunkSize chunkOverlap l.length l

/-- Embeds `split_documents`: each page document is split independently, its
chunks inheriting the page metadata, pages kept in order. -/
def split_documents (chunkSize chunkOverlap : Nat) (docs : List Document) :
    List Document :=
  docs.flatMap fun d =>
    (splitText chunkSize chunkOverlap d.content).map fun c => ⟨c, d.page⟩

/-! ### Ingestion orchestrator (`ingest_documents`, pipeline.py lines 110-156) -/

/-- Observable side effects of `ingest_documents`, in order of occurrence. -/
inductive IngEv
  | pdfLoad (e : LoadEv)
  | clientCreated
  | networkCall
  | uploadEv (e : UpEv)
deriving Repr, DecidableEq

/-- The configuration fields `ingest_documents` reads (`Config`, config.py). -/
structure IngestConfig where
  chunk_size : Nat
  chunk_overlap : Nat
  batch_size : Nat
  max_processes : Nat
  pdf_path : List Char
  collection_name : List Char
deriving Repr

/-- Embeds `ingest_documents`: validate the environment first, raising a
`ValueError` listing every missing variable before anything else happens;
then load the PDF, split it, construct the embeddings and Qdrant clients,
probe the embedding dimension (a network call), create or verify the
collection, run the batch upload, and finally print the per-chunk average
`elapsed / len(chunks)` — a `ZeroDivisionError` when there are no chunks —
before returning the uploader's boolean.  External collaborators are
abstracted as for the component functions: `env` is the process environment,
`fs` the filesystem, `qdrant` the remote collection registry, `embedDim` the
probed embedding dimensionality, `oracle` the insert-call outcomes. -/
def ingest_documents (env : List Char → Option (List Char))
    (fs : List Char → Option (List Document)) (qdrant : QdrantState)
    (embedDim : Nat) (oracle : Nat → Bool) (cfg : IngestConfig) :
    List IngEv × Except PipeErr Bool :=
  let missing := validate_environment env
  if missing.isEmpty then
    match load_pdf fs cfg.pdf_path cfg.max_processes with
    | (lev, Except.error e) => (lev.map IngEv.pdfLoad, Except.error e)
    | (lev, Except.ok documents) =>
      let chunks := split_documents cfg.chunk_size cfg.chunk_overlap documents
      let evs := lev.map IngEv.pdfLoad ++
        [IngEv.clientCreated, IngEv.clientCreated, IngEv.networkCall]
      match create_or_verify_collection
          (fun st => create_collection st cfg.collection_name embedDim) qdrant with
      | Except.error e => (evs ++ [IngEv.networkCall], Except.error (PipeErr.remote e))
      | Except.ok _ =>
        let upload := upload_in_batches oracle chunks cfg.batch_size
        let evs2 := evs ++ [IngEv.networkCall] ++
          (uploadEvents oracle 0 0 (batches cfg.batch_size chunks)).map IngEv.uploadEv
        if chunks.length = 0 then (evs2, Except.error PipeErr.divByZero)
        else (evs2, Except.ok upload.2)
  else ([], Except.error (PipeErr.missingEnv (missingEnvMsg missing)))

theorem isPrefixOf_self_append (n t : List Char) : n.isPrefixOf (n ++ t) = true := by
  simp [ List.isPrefixOf_iff_prefix]

theorem hasSub_append_right (n s t : List Char) (h : hasSub n t = true) :
    hasSub n (s ++ t) = true := by
  induction s with
  | nil => simpa using h
  | cons c s ih => simp [hasSub, ih, Bool.or_true]

theorem hasSub_of_decomp (n s t : List Char) : hasSub n (s ++ n ++ t) = true := by
  rw [List.append_assoc]
  apply hasSub_append_right
  cases hn : n with
  | nil => cases t <;> simp [hasSub, hn]
  | cons c m =>
    show hasSub (c :: m) (c :: (m ++ t)) = true
    simp [hasSub, isPrefixOf_self_append (c :: m) t]

theorem pySlice_append (l : List α) (s m e : Nat) (h1 : s ≤ m) (h2 : m ≤ e) :
    pySlice l s m ++ pySlice l m e = pySlice l s e := by
  unfold pySlice
  have hm : m = (m - s) + s := by omega
  have hdrop : l.drop m = (l.drop s).drop (m - s) := by
    rw [List.drop_drop]; congr 1; omega
  rw [hdrop]
  have hsplit : e - s = (m - s) + (e - m) := by omega
  rw [hsplit]
  generalize l.drop s = l'
  induction m - s generalizing l' with
  | zero => simp
  | succ k ih =>
    cases l' with
    | nil => simp
    | cons a l' => simpa [Nat.succ_add] using ih l'

theorem pageRanges_concat (l : List α) (N : Nat) (hN : 1 ≤ N) :
    (pageRanges l.length N).flatMap (fun r => load_pdf_pages l r.1 r.2) = l := by
  set pp := l.length / N with hpp
  have key : ∀ c j, j + c = N → 1 ≤ c →
      ((List.range' j c).map fun i =>
          ((i * pp, if i < N - 1 then (i + 1) * pp else l.length) : Nat × Nat)).flatMap
        (fun r => load_pdf_pages l r.1 r.2) = pySlice l (j * pp) l.length := by
    intro c
    induction c with
    | zero => omega
    | succ c ih =>
      intro j hj _
      rw [List.range'_succ]
      by_cases hc : c = 0
      · subst hc
        have hjN : ¬ (j < N - 1) := by omega
        simp [load_pdf_pages, hjN]
      · have hj1 : j < N - 1 := by omega
        have ihr := ih (j + 1) (by omega) (by omega)
        simp only [List.map_cons, List.flatMap_cons, ihr, hj1, if_pos]
        apply pySlice_append
        · exact Nat.mul_le_mul_right pp (by omega)
        · calc (j + 1) * pp ≤ N * pp := Nat.mul_le_mul_right pp (by omega)
            _ = pp * N := Nat.mul_comm ..
            _ ≤ l.length := Nat.div_mul_le_self l.length N
  have h0 := key N 0 (by omega) hN
  rw [pageRanges, List.range_eq_range' N, ← hpp]
  rw [h0]
  simp [pySlice]

/-- C1: whenever the PDF exists and has `P` pages with `P > N ≥ 1` workers, the
page ranges are the claimed contiguous sub-ranges (the last extended to `P`),
and the concatenated per-range loads equal the single-threaded load of all
pages: no page is reordered, dropped, or duplicated. -/
theorem load_pdf_partition_refines_sequential
    (fs : List Char → Option (List α)) (path : List Char) (N : Nat)
    (docs : List α) (hfs : fs path = some docs)
    (hN : 1 ≤ N) (hP : N < docs.length) :
    (∀ i, i + 1 < N →
      (pageRanges docs.length N)[i]? =
        some (i * (docs.length / N), (i + 1) * (docs.length / N))) ∧
    (pageRanges docs.length N)[N - 1]? =
      some ((N - 1) * (docs.length / N), docs.length) ∧
    (load_pdf fs path N).2 = Except.ok docs := by
  refine ⟨?_, ?_, ?_⟩
  · intro i hi
    have hiN : i < N := by omega
    have : ¬ (N - 1 < N - 1) := by omega
    simp [pageRanges, List.getElem?_map, List.getElem?_range, hiN]
    omega
  · have hN1 : N - 1 < N := by omega
    have : ¬ (N - 1 < N - 1) := by omega
    simp [pageRanges, List.getElem?_map, List.getElem?_range, hN1, this]
  · unfold load_pdf
    rw [hfs]
    have hle : ¬ (docs.length ≤ N) := by omega
    simp only [hle, if_false]
    exact congrArg Except.ok (pageRanges_concat docs N hN)

/-- Witness for C1 at a concrete 5-page file split across 2 workers. -/
theorem load_pdf_partition_refines_sequential_witness :
    (∀ i, i + 1 < 2 → (pageRanges 5 2)[i]? = some (i * 2, (i + 1) * 2)) ∧
    (pageRanges 5 2)[1]? = some (2, 5) ∧
    (load_pdf (fun _ => some [10, 20, 30, 40, 50]) "a.pdf".toList 2).2 =
      Except.ok [10, 20, 30, 40, 50] := by
  exact load_pdf_partition_refines_sequential (fun _ => some [10, 20, 30, 40, 50])
    "a.pdf".toList 2 [10, 20, 30, 40, 50] rfl (by decide) (by decide)

theorem uploadGo_failed_eq (oracle : Nat → Bool) (bl : List (List α)) :
    ∀ (t : Nat) (st : UploadState),
      (uploadGo oracle t st bl).failed =
        st.failed + ((failedBatches oracle t bl).map List.length).sum := by
  induction bl with
  | nil => intro t st; simp [uploadGo, failedBatches]
  | cons b rest ih =>
    intro t st
    by_cases h1 : oracle t
    · simp [uploadGo, failedBatches, h1, ih]
    · by_cases h2 : oracle (t + 1)
      · simp [uploadGo, failedBatches, h1, h2, ih, Nat.add_sub_cancel]
      · simp [uploadGo, failedBatches, h1, h2, ih]
        omega

theorem uploadGo_total (oracle : Nat → Bool) (bl : List (List α)) :
    ∀ (t : Nat) (st : UploadState),
      (uploadGo oracle t st bl).successful + (uploadGo oracle t st bl).failed =
        st.successful + st.failed + (bl.map List.length).sum := by
  induction bl with
  | nil => intro t st; simp [uploadGo]
  | cons b rest ih =>
    intro t st
    by_cases h1 : oracle t
    · simp [uploadGo, h1, ih]; omega
    · by_cases h2 : oracle (t + 1)
      · simp [uploadGo, h1, h2, ih]; omega
      · simp [uploadGo, h1, h2, ih]; omega

theorem mem_batchesGo_ne_nil (batchSize : Nat) (hbs : 1 ≤ batchSize) :
    ∀ (fuel : Nat) (docs : List α) (b : List α),
      b ∈ batchesGo batchSize fuel docs → b ≠ [] := by
  intro fuel
  induction fuel with
  | zero => intro docs b hb; cases docs <;> simp [batchesGo] at hb
  | succ fuel ih =>
    intro docs b hb
    cases docs with
    | nil => simp [batchesGo] at hb
    | cons d ds =>
      simp only [batchesGo, List.mem_cons] at hb
      rcases hb with hb | hb
      · subst hb
        simp [List.take_eq_nil_iff]
        omega
      · exact ih _ b hb

theorem mem_failedBatches (oracle : Nat → Bool) (bl : List (List α)) :
    ∀ (t : Nat) (b : List α), b ∈ failedBatches oracle t bl → b ∈ bl := by
  induction bl with
  | nil => intro t b hb; simp [failedBatches] at hb
  | cons x rest ih =>
    intro t b hb
    unfold failedBatches at hb
    by_cases h1 : oracle t = true
    · rw [if_pos h1] at hb
      exact List.mem_cons_of_mem x (ih _ b hb)
    · rw [if_neg h1] at hb
      by_cases h2 : oracle (t + 1) = true
      · rw [if_pos h2] at hb
        exact List.mem_cons_of_mem x (ih _ b hb)
      · rw [if_neg h2] at hb
        rcases List.mem_cons.mp hb with hb | hb
        · exact hb ▸ List.mem_cons_self x rest
        · exact List.mem_cons_of_mem x (ih _ b hb)

theorem batchesGo_length_sum (batchSize : Nat) (hbs : 1 ≤ batchSize) :
    ∀ (fuel : Nat) (docs : List α), docs.length ≤ fuel →
      ((batchesGo batchSize fuel docs).map List.length).sum = docs.length := by
  intro fuel
  induction fuel with
  | zero =>
    intro docs hlen
    have : docs = [] := List.length_eq_zero.mp (by omega)
    subst this; simp [batchesGo]
  | succ fuel ih =>
    intro docs hlen
    cases docs with
    | nil => simp [batchesGo]
    | cons d ds =>
      have hlen' : ds.length + 1 ≤ fuel + 1 := by simpa using hlen
      have hrec := ih ((d :: ds).drop batchSize) (by simp [List.length_drop]; omega)
      simp only [batchesGo, List.map_cons, List.sum_cons, hrec]
      simp [List.length_take, List.length_drop]
      omega

/-- C2: a batch whose first insert fails but whose retry succeeds contributes
its length to `successful` and nothing to `failed` (the earlier `failed +=
len` is undone by `failed -= len`); a batch failing both attempts contributes
its length to `failed` exactly once; in both cases the loop simply continues
with the remaining batches, so a twice-failed batch never prevents a later
batch from being attempted. -/
theorem upload_retry_accounting (oracle : Nat → Bool) (t : Nat)
    (st : UploadState) (b : List α) (rest : List (List α)) :
    (oracle t = false → oracle (t + 1) = true →
      uploadGo oracle t st (b :: rest) =
        uploadGo oracle (t + 2) ⟨st.successful + b.length, st.failed⟩ rest) ∧
    (oracle t = false → oracle (t + 1) = false →
      uploadGo oracle t st (b :: rest) =
        uploadGo oracle (t + 2) ⟨st.successful, st.failed + b.length⟩ rest) := by
  constructor
  · intro h1 h2
    simp [uploadGo, h1, h2, Nat.add_sub_cancel]
  · intro h1 h2
    simp [uploadGo, h1, h2]

/-- Witness for C2: concrete oracle failing call 0, succeeding on retry
(first conjunct), and one failing calls 0 and 1 (second conjunct). -/
theorem upload_retry_accounting_witness :
    (uploadGo (fun t => t != 0) 0 ⟨0, 0⟩ [[10], [20]] =
      uploadGo (fun t => t != 0) 2 ⟨0 + 1, 0⟩ [[20]]) ∧
    (uploadGo (fun _ => false) 0 ⟨0, 0⟩ [[10], [20]] =
      uploadGo (fun _ => false) 2 ⟨0, 0 + 1⟩ [[20]]) :=
  ⟨(upload_retry_accounting (fun t => t != 0) 0 ⟨0, 0⟩ [10] [[20]]).1 rfl rfl,
   (upload_retry_accounting (fun _ => false) 0 ⟨0, 0⟩ [10] [[20]]).2 rfl rfl⟩

/-- C3: `upload_in_batches` returns `true` exactly when no batch ultimately
failed, i.e. every batch succeeded on its first attempt or on its single
retry (stated for a positive batch size, as Python's `range` rejects a zero
step). -/
theorem upload_true_iff_no_failed_batch (oracle : Nat → Bool) (docs : List α)
    (batchSize : Nat) (hbs : 1 ≤ batchSize) :
    (upload_in_batches oracle docs batchSize).2 = true ↔
      failedBatches oracle 0 (batches batchSize docs) = [] := by
  unfold upload_in_batches
  simp only [beq_iff_eq]
  rw [uploadGo_failed_eq]
  simp only [Nat.zero_add]
  constructor
  · intro hsum
    cases hfb : failedBatches oracle 0 (batches batchSize docs) with
    | nil => rfl
    | cons b fb =>
      exfalso
      have hmem : b ∈ failedBatches oracle 0 (batches batchSize docs) := by
        rw [hfb]; exact List.mem_cons_self b fb
      have hb : b ∈ batches batchSize docs := mem_failedBatches oracle _ 0 b hmem
      have hne : b ≠ [] := mem_batchesGo_ne_nil batchSize hbs docs.length docs b hb
      have : b.length = 0 := by
        have := List.sum_eq_zero_iff.mp hsum b.length
        apply this
        rw [hfb]
        simp
      exact hne (List.length_eq_zero.mp this)
  · intro hfb
    rw [hfb]
    simp

/-- Witness for C3 at a concrete two-batch run whose second batch fails
twice: the uploader reports `false` and the failed-batch list is nonempty. -/
theorem upload_true_iff_no_failed_batch_witness :
    ((upload_in_batches (fun t => t == 0) [10, 20] 1).2 = true ↔
      failedBatches (fun t => t == 0) 0 (batches 1 [10, 20]) = []) :=
  upload_true_iff_no_failed_batch (fun t => t == 0) [10, 20] 1 (by decide)

/-- C9: the tallies always partition the input; every chunk is counted
exactly once, in `successful` or in `failed`, so `successful + failed`
equals the number of documents (positive batch size, as for C3). -/
theorem upload_conservation (oracle : Nat → Bool) (docs : List α)
    (batchSize : Nat) (hbs : 1 ≤ batchSize) :
    (upload_in_batches oracle docs batchSize).1.successful +
        (upload_in_batches oracle docs batchSize).1.failed = docs.length := by
  unfold upload_in_batches
  simp only
  rw [uploadGo_total]
  simp [batches, batchesGo_length_sum batchSize hbs docs.length docs (Nat.le_refl _)]

/-- Witness for C9 with an oracle that fails every call: both documents end
up in `failed` and the tallies still sum to the input length. -/
theorem upload_conservation_witness :
    (upload_in_batches (fun _ => false) [10, 20, 30] 2).1.successful +
        (upload_in_batches (fun _ => false) [10, 20, 30] 2).1.failed = 3 := by
  exact upload_conservation (fun _ => false) [10, 20, 30] 2 (by decide)

/-- Counterexample to C6 as stated: with two batches whose first batch fails
its first attempt, the trace is `insert 0; sleep 5 (backoff); retry insert 0;
insert 1; gc; sleep 1` — batch 1 is submitted immediately after batch 0's
retry, with no pause enforced between the two batches. -/
theorem upload_pause_after_every_batch_cex :
    uploadEvents c6Oracle 0 0 [[10], [20]] =
      [UpEv.insert 0 false, UpEv.sleep retryBackoff, UpEv.insert 0 true,
       UpEv.insert 1 false, UpEv.gcCollect, UpEv.sleep interBatchPause] ∧
    adjacentCrossBatchInserts (uploadEvents c6Oracle 0 0 [[10], [20]]) = true := by
  constructor <;> rfl

/-- C6 amended: the fixed `0.1` pause is enforced only after a batch whose
first attempt succeeds; a batch whose first attempt fails waits the strictly
longer `0.5` backoff before its single retry, and no pause at all separates
the retry from the next batch's submission.  Additionally every retry insert
in the trace is immediately preceded by the backoff sleep, and the backoff
strictly exceeds the inter-batch pause. -/
theorem upload_pause_amended (oracle : Nat → Bool) (t k : Nat)
    (b : List α) (rest : List (List α)) :
    (uploadEvents oracle t k (b :: rest) =
      if oracle t then
        [UpEv.insert k false, UpEv.gcCollect, UpEv.sleep interBatchPause] ++
          uploadEvents oracle (t + 1) (k + 1) rest
      else
        [UpEv.insert k false, UpEv.sleep retryBackoff, UpEv.insert k true] ++
          uploadEvents oracle (t + 2) (k + 1) rest) ∧
    (∀ (i j : Nat),
      (uploadEvents oracle t k (b :: rest))[i]? = some (UpEv.insert j true) →
        0 < i ∧
        (uploadEvents oracle t k (b :: rest))[i - 1]? =
          some (UpEv.sleep retryBackoff)) ∧
    interBatchPause < retryBackoff := by
  have key : ∀ (bl : List (List α)) (t k i j : Nat),
      (uploadEvents oracle t k bl)[i]? = some (UpEv.insert j true) →
        0 < i ∧ (uploadEvents oracle t k bl)[i - 1]? = some (UpEv.sleep retryBackoff) := by
    intro bl
    induction bl with
    | nil => intro t k i j h; simp [uploadEvents] at h
    | cons b rest ih =>
      intro t k i j h
      by_cases h1 : oracle t = true
      · rw [uploadEvents, if_pos h1] at h
        match i, h with
        | 0, h => simp at h
        | 1, h => simp at h
        | 2, h => simp at h
        | (m + 3), h =>
          have hm := ih (t + 1) (k + 1) m j (by simpa using h)
          refine ⟨by omega, ?_⟩
          have h2 : m + 3 - 1 = (m - 1) + 3 := by omega
          rw [uploadEvents, if_pos h1, h2]
          simpa using hm.2
      · rw [uploadEvents, if_neg h1] at h
        match i, h with
        | 0, h => simp at h
        | 1, h => simp at h
        | 2, h =>
          refine ⟨by omega, ?_⟩
          rw [uploadEvents, if_neg h1]
          rfl
        | (m + 3), h =>
          have hm := ih (t + 2) (k + 1) m j (by simpa using h)
          refine ⟨by omega, ?_⟩
          have h2 : m + 3 - 1 = (m - 1) + 3 := by omega
          rw [uploadEvents, if_neg h1, h2]
          simpa using hm.2
  refine ⟨?_, key (b :: rest) t k, by decide⟩
  by_cases h1 : oracle t = true
  · rw [uploadEvents, if_pos h1, if_pos h1]; rfl
  · rw [uploadEvents, if_neg h1, if_neg h1]; rfl

/-- Witness for C6's amended statement: in the counterexample trace the retry
insert sits at index 2, directly after the backoff sleep at index 1. -/
theorem upload_pause_amended_witness :
    0 < 2 ∧
      (uploadEvents c6Oracle 0 0 [[10], [20]])[2 - 1]? =
        some (UpEv.sleep retryBackoff) :=
  (upload_pause_amended c6Oracle 0 0 [10] [[20]]).2.1 2 0 rfl

/-! ### Missing input file (C8) -/

/-- C8: for a path missing from the filesystem, `load_pdf` raises
`FileNotFoundError` with the `PDF not found` message and performs no page
load at all (empty action trace): the `Path(pdf_path).exists()` check
precedes every `loader.load()` call. -/
theorem load_pdf_missing_file (fs : List Char → Option (List α))
    (path : List Char) (N : Nat) (hfs : fs path = none) :
    load_pdf fs path N =
      ([], Except.error (PipeErr.fileNotFound (pdfNotFoundMsg path))) := by
  unfold load_pdf
  rw [hfs]

/-- Witness for C8 on an empty filesystem. -/
theorem load_pdf_missing_file_witness :
    load_pdf (fun _ => (none : Option (List Nat))) "ghost.pdf".toList 8 =
      ([], Except.error (PipeErr.fileNotFound (pdfNotFoundMsg "ghost.pdf".toList))) :=
  load_pdf_missing_file (fun _ => none) "ghost.pdf".toList 8 rfl

theorem joinComma_mem_decomp (v : List Char) (l : List (List Char)) (h : v ∈ l) :
    ∃ s t, joinComma l = s ++ v ++ t := by
  induction l with
  | nil => simp at h
  | cons x xs ih =>
    rcases List.mem_cons.mp h with hv | hv
    · subst hv
      cases xs with
      | nil => exact ⟨[], [], by simp [joinComma]⟩
      | cons y ys => exact ⟨[], ", ".toList ++ joinComma (y :: ys), by simp [joinComma]⟩
    · have hxs : xs ≠ [] := List.ne_nil_of_mem hv
      obtain ⟨s, t, hst⟩ := ih hv
      cases xs with
      | nil => exact absurd rfl hxs
      | cons y ys =>
        refine ⟨x ++ ", ".toList ++ s, t, ?_⟩
        simp [joinComma, hst]

theorem create_collection_verify_ok (st : QdrantState) (name : List Char) (dim : Nat) :
    ∃ st', create_or_verify_collection (fun s => create_collection s name dim) st =
      Except.ok (true, st') := by
  by_cases hmem : (st.collections.map Prod.fst).contains name = true
  · refine ⟨st, ?_⟩
    have hc : create_collection st name dim =
        Except.error (("Collection ".toList ++ name) ++ " already exists!".toList) := by
      unfold create_collection
      rw [if_pos hmem]
    have hmsg : hasSub alreadyExistsText
        (toLowerL (("Collection ".toList ++ name) ++ " already exists!".toList)) = true := by
      rw [toLowerL, List.map_append]
      exact hasSub_append_right _ _ _ (by decide)
    rw [create_or_verify_collection, hc, handleCreateOutcome, hmsg]
    rfl
  · refine ⟨⟨(name, dim) :: st.collections⟩, ?_⟩
    have hc : create_collection st name dim =
        Except.ok ⟨(name, dim) :: st.collections⟩ := by
      unfold create_collection
      rw [if_neg hmem]
    rw [create_or_verify_collection, hc]
    rfl

/-- C5: an `"already exists"` creation failure is treated as success, any
other creation failure is re-raised, and with the modelled remote service
two consecutive `create_or_verify_collection` calls for the same collection
name and dimensionality both succeed (the second observing `AlreadyExists`). -/
theorem collection_provisioning_idempotent :
    (∀ (create : QdrantState → Except (List Char) QdrantState) (st : QdrantState)
        (e : List Char), create st = Except.error e →
        hasSub alreadyExistsText (toLowerL e) = true →
        create_or_verify_collection create st = Except.ok (true, st)) ∧
    (∀ (create : QdrantState → Except (List Char) QdrantState) (st : QdrantState)
        (e : List Char), create st = Except.error e →
        hasSub alreadyExistsText (toLowerL e) = false →
        create_or_verify_collection create st = Except.error e) ∧
    (∀ (st : QdrantState) (name : List Char) (dim : Nat), ∃ st' st'',
        create_or_verify_collection (fun s => create_collection s name dim) st =
          Except.ok (true, st') ∧
        create_or_verify_collection (fun s => create_collection s name dim) st' =
          Except.ok (true, st'')) := by
  refine ⟨?_, ?_, ?_⟩
  · intro create st e he hae
    rw [create_or_verify_collection, he, handleCreateOutcome, hae]
    rfl
  · intro create st e he hae
    rw [create_or_verify_collection, he, handleCreateOutcome, hae]
    rfl
  · intro st name dim
    obtain ⟨st', h1⟩ := create_collection_verify_ok st name dim
    obtain ⟨st'', h2⟩ := create_collection_verify_ok st' name dim
    exact ⟨st', st'', h1, h2⟩

/-- Witness for C5: a concrete `already exists` failure is swallowed, a
concrete `timeout` failure is re-raised. -/
theorem collection_provisioning_idempotent_witness :
    create_or_verify_collection
        (fun _ => Except.error "Collection `c` ALREADY EXISTS!".toList) ⟨[]⟩ =
      Except.ok (true, (⟨[]⟩ : QdrantState)) ∧
    create_or_verify_collection
        (fun _ => Except.error "Connection timeout".toList) ⟨[]⟩ =
      Except.error "Connection timeout".toList :=
  ⟨collection_provisioning_idempotent.1
      (fun _ => Except.error "Collection `c` ALREADY EXISTS!".toList) ⟨[]⟩
      "Collection `c` ALREADY EXISTS!".toList rfl (by decide),
   collection_provisioning_idempotent.2.1
      (fun _ => Except.error "Connection timeout".toList) ⟨[]⟩
      "Connection timeout".toList rfl (by decide)⟩

theorem splitTextGo_cons (S O fuel : Nat) (a : Char) (l' : List Char) :
    splitTextGo S O (fuel + 1) (a :: l') =
      if (a :: l').length ≤ S then [a :: l']
      else (a :: l').take S ::
        splitTextGo S O fuel ((a :: l').drop (S - O)) := rfl

theorem splitTextGo_length_le (S O : Nat) (hO : O < S) :
    ∀ (fuel : Nat) (l : List Char), l.length ≤ fuel →
      ∀ c ∈ splitTextGo S O fuel l, c.length ≤ S := by
  intro fuel
  induction fuel with
  | zero =>
    intro l hlen c hc
    have : l = [] := List.length_eq_zero.mp (by omega)
    subst this
    simp [splitTextGo] at hc
  | succ fuel ih =>
    intro l hlen c hc
    cases l with
    | nil => simp [splitTextGo] at hc
    | cons a l' =>
      rw [splitTextGo_cons] at hc
      have hlen' : l'.length + 1 ≤ fuel + 1 := by simpa using hlen
      by_cases hS : (a :: l').length ≤ S
      · rw [if_pos hS] at hc
        rcases List.mem_cons.mp hc with h | h
        · exact h ▸ hS
        · simp at h
      · rw [if_neg hS] at hc
        have hS' : ¬ (l'.length + 1 ≤ S) := by simpa using hS
        rcases List.mem_cons.mp hc with h | h
        · subst h
          simp [List.length_take]
        · refine ih _ ?_ c h
          simp only [List.length_drop, List.length_cons]
          omega

theorem splitTextGo_chunk_shape (S O : Nat) (hS : 0 < S) (hO : O < S) :
    ∀ (fuel : Nat) (l : List Char), l.length ≤ fuel →
      ∀ (i : Nat) (ci : List Char), (splitTextGo S O fuel l)[i]? = some ci →
        ci = (l.drop (i * (S - O))).take ci.length ∧
        ci.length = min S (l.length - i * (S - O)) ∧ ci ≠ [] := by
  intro fuel
  induction fuel with
  | zero =>
    intro l hlen i ci hci
    have : l = [] := List.length_eq_zero.mp (by omega)
    subst this
    simp [splitTextGo] at hci
  | succ fuel ih =>
    intro l hlen i ci hci
    cases l with
    | nil => simp [splitTextGo] at hci
    | cons a l' =>
      rw [splitTextGo_cons] at hci
      have hlen' : l'.length + 1 ≤ fuel + 1 := by simpa using hlen
      by_cases hSl : (a :: l').length ≤ S
      · rw [if_pos hSl] at hci
        have hSl' : l'.length + 1 ≤ S := by simpa using hSl
        match i, hci with
        | 0, hci =>
          have hc : a :: l' = ci := by simpa using hci
          subst hc
          refine ⟨by simp, ?_, by simp⟩
          simp only [Nat.zero_mul, Nat.sub_zero, List.length_cons]
          omega
        | (m + 1), hci => simp at hci
      · rw [if_neg hSl] at hci
        have hSl' : ¬ (l'.length + 1 ≤ S) := by simpa using hSl
        match i, hci with
        | 0, hci =>
          have hc : (a :: l').take S = ci := by simpa using hci
          subst hc
          have hlt : ((a :: l').take S).length = S := by
            simp only [List.length_take, List.length_cons]
            omega
          refine ⟨by rw [hlt]; simp, ?_, ?_⟩
          · rw [hlt]
            simp only [Nat.zero_mul, Nat.sub_zero, List.length_cons]
            omega
          · simp only [ne_eq, List.take_eq_nil_iff]
            push_neg
            exact ⟨by omega, by simp⟩
        | (m + 1), hci =>
          have hstep := ih ((a :: l').drop (S - O))
            (by simp only [List.length_drop, List.length_cons]; omega)
            m ci (by simpa using hci)
          obtain ⟨h1, h2, h3⟩ := hstep
          have hmul : (S - O) + m * (S - O) = (m + 1) * (S - O) := by ring
          have hd : List.drop (m * (S - O)) (List.drop (S - O) (a :: l')) =
              List.drop ((m + 1) * (S - O)) (a :: l') := by
            rw [List.drop_drop, hmul]
          refine ⟨?_, ?_, h3⟩
          · rw [← hd]
            exact h1
          · rw [h2]
            congr 1
            simp only [List.length_drop]
            omega

theorem splitTextGo_overlap (S O : Nat) (hS : 0 < S) (hO : O < S) :
    ∀ (fuel : Nat) (l : List Char), l.length ≤ fuel →
      ∀ (i : Nat) (ci cj : List Char),
        (splitTextGo S O fuel l)[i]? = some ci →
        (splitTextGo S O fuel l)[i + 1]? = some cj →
        ci.drop (ci.length - O) = cj.take O ∧ O ≤ ci.length := by
  intro fuel
  induction fuel with
  | zero =>
    intro l hlen i ci cj hci hcj
    have : l = [] := List.length_eq_zero.mp (by omega)
    subst this
    simp [splitTextGo] at hci
  | succ fuel ih =>
    intro l hlen i ci cj hci hcj
    cases l with
    | nil => simp [splitTextGo] at hci
    | cons a l' =>
      rw [splitTextGo_cons] at hci hcj
      have hlen0 : l'.length + 1 ≤ fuel + 1 := by simpa using hlen
      by_cases hSl : (a :: l').length ≤ S
      · rw [if_pos hSl] at hcj
        simp at hcj
      · rw [if_neg hSl] at hci hcj
        have hSl' : ¬ (l'.length + 1 ≤ S) := by simpa using hSl
        have hlen' : ((a :: l').drop (S - O)).length ≤ fuel := by
          simp only [List.length_drop, List.length_cons]
          omega
        match i, hci, hcj with
        | 0, hci, hcj =>
          have hc : (a :: l').take S = ci := by simpa using hci
          have hj : (splitTextGo S O fuel ((a :: l').drop (S - O)))[0]? = some cj := by
            simpa using hcj
          obtain ⟨hj1, hj2, _⟩ :=
            splitTextGo_chunk_shape S O hS hO fuel _ hlen' 0 cj hj
          have hcil : ci.length = S := by
            rw [← hc]
            simp only [List.length_take, List.length_cons]
            omega
          have hOcj : O ≤ cj.length := by
            rw [hj2]
            simp only [Nat.zero_mul, Nat.sub_zero, List.length_drop, List.length_cons]
            omega
          refine ⟨?_, by omega⟩
          rw [hcil, ← hc]
          have hdropTake : ((a :: l').take S).drop (S - O) =
              ((a :: l').drop (S - O)).take O := by
            have hOS : (S - O) + O = S := by omega
            rw [List.take_drop, hOS]
          rw [hdropTake, hj1]
          simp only [Nat.zero_mul, List.drop_zero]
          rw [List.take_take, Nat.min_eq_left hOcj]
        | (m + 1), hci, hcj =>
          exact ih _ hlen' m ci cj (by simpa using hci) (by simpa using hcj)

/-- C7: for `chunk_size S > 0` and `0 ≤ overlap O < S`, every chunk of
`split_documents` has content length at most `S`; consecutive chunks of the
same source document overlap in (at least) `O` characters — the last `O`
characters of a chunk are the first `O` characters of its successor, and
each chunk holds at least `O` characters; chunks appear grouped by source
document in document order; and the i-th chunk of a document is the slice of
its text starting at position `i * (S - O)`, so within-document order is
position order. -/
theorem split_documents_bounds_overlap_order (S O : Nat) (hS : 0 < S) (hO : O < S)
    (docs : List Document) :
    (∀ c ∈ split_documents S O docs, c.content.length ≤ S) ∧
    (∀ d ∈ docs, ∀ (i : Nat) (ci cj : List Char),
        (splitText S O d.content)[i]? = some ci →
        (splitText S O d.content)[i + 1]? = some cj →
        ci.drop (ci.length - O) = cj.take O ∧ O ≤ ci.length) ∧
    (split_documents S O docs =
      docs.flatMap fun d => (splitText S O d.content).map fun c => ⟨c, d.page⟩) ∧
    (∀ d ∈ docs, ∀ (i : Nat) (ci : List Char),
        (splitText S O d.content)[i]? = some ci →
        ci = (d.content.drop (i * (S - O))).take ci.length ∧ ci ≠ []) := by
  refine ⟨?_, ?_, rfl, ?_⟩
  · intro c hc
    simp only [split_documents, List.mem_flatMap, List.mem_map] at hc
    obtain ⟨d, _, a, ha, hc⟩ := hc
    have := splitTextGo_length_le S O hO d.content.length d.content (Nat.le_refl _) a ha
    rw [← hc]
    exact this
  · intro d _ i ci cj hci hcj
    exact splitTextGo_overlap S O hS hO d.content.length d.content (Nat.le_refl _)
      i ci cj hci hcj
  · intro d _ i ci hci
    have h := splitTextGo_chunk_shape S O hS hO d.content.length d.content
      (Nat.le_refl _) i ci hci
    exact ⟨h.1, h.2.2⟩

/-- Witness for C7: `"abcde"` with chunk size 3 and overlap 1 splits into
`["abc", "cde"]`; the first chunk's last character is the second chunk's
first character. -/
theorem split_documents_bounds_overlap_order_witness :
    "abc".toList.drop ("abc".toList.length - 1) = "cde".toList.take 1 ∧
      1 ≤ "abc".toList.length :=
  (split_documents_bounds_overlap_order 3 1 (by decide) (by decide)
      [⟨"abcde".toList, 0⟩]).2.1 ⟨"abcde".toList, 0⟩ (by simp)
    0 "abc".toList "cde".toList rfl rfl

/-- C4: with any required environment variable unset (or empty — Python
truthiness), `ingest_documents` raises before doing anything else: the
effect trace is empty, so no network client is constructed and no network
call is attempted, and the error message lists every missing required
variable, not only the first. -/
theorem ingest_missing_env_fails_first (env : List Char → Option (List Char))
    (fs : List Char → Option (List Document)) (qdrant : QdrantState)
    (embedDim : Nat) (oracle : Nat → Bool) (cfg : IngestConfig)
    (h : validate_environment env ≠ []) :
    (ingest_documents env fs qdrant embedDim oracle cfg).1 = [] ∧
    (ingest_documents env fs qdrant embedDim oracle cfg).2 =
      Except.error (PipeErr.missingEnv (missingEnvMsg (validate_environment env))) ∧
    ∀ v ∈ validate_environment env,
      ∃ s t, missingEnvMsg (validate_environment env) = s ++ v ++ t := by
  have hne : (validate_environment env).isEmpty = false := by
    cases hv : validate_environment env with
    | nil => exact absurd hv h
    | cons x xs => rfl
  refine ⟨?_, ?_, ?_⟩
  · rw [ingest_documents, hne]
    rfl
  · rw [ingest_documents, hne]
    rfl
  · intro v hv
    obtain ⟨s, t, hst⟩ := joinComma_mem_decomp v (validate_environment env) hv
    exact ⟨"Missing environment variables: ".toList ++ s, t, by
      rw [missingEnvMsg, hst]
      simp [List.append_assoc]⟩

/-- Witness for C4 on a fully unset environment: the trace is empty and the
message names `QDRANT_API_KEY`, the last of the ten missing variables. -/
theorem ingest_missing_env_fails_first_witness :
    (ingest_documents (fun _ => none) (fun _ => none) ⟨[]⟩ 3 (fun _ => true)
        ⟨2048, 0, 2, 8, "doc.pdf".toList, "col".toList⟩).1 = [] ∧
    ∃ s t, missingEnvMsg (validate_environment (fun _ => none)) =
      s ++ "QDRANT_API_KEY".toList ++ t :=
  ⟨(ingest_missing_env_fails_first (fun _ => none) (fun _ => none) ⟨[]⟩ 3
      (fun _ => true) ⟨2048, 0, 2, 8, "doc.pdf".toList, "col".toList⟩
      (by decide)).1,
   (ingest_missing_env_fails_first (fun _ => none) (fun _ => none) ⟨[]⟩ 3
      (fun _ => true) ⟨2048, 0, 2, 8, "doc.pdf".toList, "col".toList⟩
      (by decide)).2.2 "QDRANT_API_KEY".toList (by decide)⟩

/-- C10: when the loaded pages split into zero chunks, `upload_in_batches`
itself returns `true` (no batches, `failed == 0`), but `ingest_documents`
then evaluates `elapsed / len(chunks)` with `len(chunks) == 0` and raises a
`ZeroDivisionError` instead of returning that boolean. -/
theorem ingest_zero_chunks_div_by_zero (env : List Char → Option (List Char))
    (fs : List Char → Option (List Document)) (qdrant : QdrantState)
    (embedDim : Nat) (oracle : Nat → Bool) (cfg : IngestConfig)
    (documents : List Document) (lev : List LoadEv)
    (hmiss : validate_environment env = [])
    (hload : load_pdf fs cfg.pdf_path cfg.max_processes = (lev, Except.ok documents))
    (hchunks : split_documents cfg.chunk_size cfg.chunk_overlap documents = []) :
    (upload_in_batches oracle
        (split_documents cfg.chunk_size cfg.chunk_overlap documents)
        cfg.batch_size).2 = true ∧
    (ingest_documents env fs qdrant embedDim oracle cfg).2 =
      Except.error PipeErr.divByZero := by
  constructor
  · rw [hchunks]
    rfl
  · obtain ⟨st', hcov⟩ :=
      create_collection_verify_ok qdrant cfg.collection_name embedDim
    rw [ingest_documents, hmiss]
    simp only [List.isEmpty_nil, if_true, hload, hcov, hchunks]
    rfl

/-- Witness for C10: a one-page PDF whose page text is empty yields zero
chunks; the uploader reports `true` but ingestion raises. -/
theorem ingest_zero_chunks_div_by_zero_witness :
    (upload_in_batches (fun _ => true)
        (split_documents 2048 0 [⟨[], 0⟩]) 2).2 = true ∧
    (ingest_documents (fun _ => some "x".toList) (fun _ => some [⟨[], 0⟩]) ⟨[]⟩ 3
        (fun _ => true) ⟨2048, 0, 2, 8, "doc.pdf".toList, "col".toList⟩).2 =
      Except.error PipeErr.divByZero :=
  ingest_zero_chunks_div_by_zero (fun _ => some "x".toList)
    (fun _ => some [⟨[], 0⟩]) ⟨[]⟩ 3 (fun _ => true)
    ⟨2048, 0, 2, 8, "doc.pdf".toList, "col".toList⟩ [⟨[], 0⟩] [LoadEv.fullLoad]
    (by decide) rfl rfl

end ATChatbot
